import Mathlib

/-!
Verification development for the guessit filename-metadata extractor.

The definitions below are a shallow embedding of the repository's code:
 - guessit/matchtree.py   (match tree, positional resolver)
 - guessit/transfo/guess_weak_episodes_rexps.py  (weak episode-number pass)
 - guessit/language.py    (language database, Language entity, search_language)

Python lists of triples become Lean lists of tuples, in-place tree mutation
becomes explicit state passing, dict/frozenset tables become association
lists with last-binding-wins lookup, and exceptions become Except/Option.
Confidences are rationals.
-/

set_option maxRecDepth 4000

/-! ## Generic helpers -/

/-- First-binding-wins association lookup (Python dict access for dicts
built without duplicate keys, and regex groupdict access). -/
def lookupFirst {α : Type} (d : List (String × α)) (k : String) : Option α :=
  match d with
  | [] => none
  | (k0, v) :: rest => if k0 = k then some v else lookupFirst rest k

/-- Last-binding-wins association lookup: Python `dict((k, v) for ...)`
semantics, where a later binding of the same key overwrites an earlier one. -/
def dictGet {α : Type} (d : List (String × α)) (k : String) : Option α :=
  match d with
  | [] => none
  | (k0, v) :: rest =>
    match dictGet rest k with
    | some v1 => some v1
    | none => if k0 = k then some v else none

/-- Python `str.find`: index of the first occurrence of `pat` in the list,
`none` standing for Python's `-1`. -/
def findSub (pat : List Char) : List Char → Option Nat
  | [] => if pat.isEmpty then some 0 else none
  | c :: t =>
    if pat.isPrefixOf (c :: t) then some 0
    else (findSub pat t).map (· + 1)

/-- Python slice `l[a:b]`. -/
def listSlice {α : Type} (l : List α) (a b : Nat) : List α :=
  (l.drop a).take (b - a)

/-- Numeric value of a digit string, Python `int` on a regex digit group. -/
def parseNatDigits (cs : List Char) : Option Nat :=
  if cs ≠ [] ∧ cs.all Char.isDigit then
    some (cs.foldl (fun a c => a * 10 + (c.toNat - 48)) 0)
  else none

/-- Numeric value of a digit string. -/
def parseNatStr (s : String) : Option Nat :=
  parseNatDigits s.toList

/-- ASCII lowercasing, Python `str.lower` on the characters appearing here. -/
def lowerStr (s : String) : String :=
  String.mk (s.toList.map Char.toLower)

/-! ## Match tree (guessit/matchtree.py)

A match tree is a 3-level nesting: path parts / explicit groups / leaf
groups, a leaf being `(original_substring, remaining_text, guess_or_none)`.
A guess is a property map with a confidence. -/

structure Guess where
  props : List (String × String)
  conf : ℚ
deriving DecidableEq, Repr

/-- Leaf group of the match tree: `(group, remaining, guess)`. -/
abbrev Leaf := String × String × Option Guess

abbrev MatchTree := List (List (List Leaf))

/-- Position of a leaf: `(pidx, eidx, gidx)`. -/
abbrev GPos := Nat × Nat × Nat

/-- The `guessed` callback of `match_from_epnum_position` simply builds a
Guess from a property map and a confidence. -/
def mkGuess (props : List (String × String)) (c : ℚ) : Guess :=
  ⟨props, c⟩

/-- matchtree.iterate_groups: all `(position, leaf)` pairs in
path-part-major, explicit-group-next, leaf-minor order. -/
def iterate_groups (t : MatchTree) : List (GPos × Leaf) :=
  t.enum.bind fun pp =>
    pp.2.enum.bind fun eg =>
      eg.2.enum.map fun g => ((pp.1, eg.1, g.1), g.2)

/-- matchtree.find_group: positions of the leaves whose guess contains the
asked property (Python `guess and prop in guess`). -/
def find_group (t : MatchTree) (prop : String) : List GPos :=
  (iterate_groups t).filterMap fun pg =>
    match pg.2.2.2 with
    | some g => if prop ∈ g.props.map Prod.fst then some pg.1 else none
    | none => none

/-- Default validity predicate of leftover_valid_groups: `len(s) > 3`. -/
def validDefault (s : String) : Bool :=
  decide (3 < s.length)

/-- matchtree.leftover_valid_groups: unguessed leaves whose cleaned
remaining text satisfies the validity predicate, as
`(cleaned_str, position)` pairs.  `clean` stands for the external
`textutils.clean_string` collaborator. -/
def leftover_valid_groups (clean : String → String) (valid : String → Bool)
    (t : MatchTree) : List (String × GPos) :=
  (iterate_groups t).filterMap fun pg =>
    match pg.2.2.2 with
    | some _ => none
    | none =>
      let cs := clean pg.2.2.1
      if valid cs then some (cs, pg.1) else none

/-- Modelled from the spec: `patterns.deleted`, the sentinel filler
character substituted for consumed text (guessit/patterns.py is not part
of the sources here; the spec states the filler preserves length, so it is
a single character). -/
def deleted : Char := '_'

/-- matchtree.match_from_epnum_position's update_found helper: commit a
guess at a leaf position, replacing the leaf's remaining text by filler of
the length of its original substring, and drop that position from the
leftover list. -/
def update_found (t : MatchTree) (leftover : List (String × GPos))
    (gpos : GPos) (g : Guess) : MatchTree × List (String × GPos) :=
  let pp := t.getD gpos.1 []
  let eg := pp.getD gpos.2.1 []
  let leaf := eg.getD gpos.2.2 ("", "", none)
  let leaf2 : Leaf := (leaf.1, String.mk (List.replicate leaf.1.length deleted), some g)
  (t.set gpos.1 (pp.set gpos.2.1 (eg.set gpos.2.2 leaf2)),
   leftover.filter fun x => !decide (x.2 = gpos))

/-- Lexicographic comparison of Python index pairs `(eidx, gidx)`. -/
def pairLtB (x y : Nat × Nat) : Bool :=
  decide (x.1 < y.1) || (decide (x.1 = y.1) && decide (x.2 < y.2))

/-- Leftover leaf in the anchor's path part, ordered before the anchor. -/
def same_pgroup_before (anchor : GPos) (g : String × GPos) : Bool :=
  decide (g.2.1 = anchor.1) && pairLtB (g.2.2.1, g.2.2.2) (anchor.2.1, anchor.2.2)

/-- Leftover leaf in the anchor's path part, ordered after the anchor. -/
def same_pgroup_after (anchor : GPos) (g : String × GPos) : Bool :=
  decide (g.2.1 = anchor.1) && pairLtB (anchor.2.1, anchor.2.2) (g.2.2.1, g.2.2.2)

/-- Leftover leaf in the anchor's explicit group, after the anchor. -/
def same_egroup_after (anchor : GPos) (g : String × GPos) : Bool :=
  decide (g.2.1 = anchor.1) && decide (g.2.2.1 = anchor.2.1) &&
    decide (anchor.2.2 < g.2.2.2)

/-- Resolver state: the tree plus the current leftover list. -/
abbrev RState := MatchTree × List (String × GPos)

/-- Rule 1 of match_from_epnum_position: exactly one leftover leaf in the
anchor's path part before the anchor gets `series` at confidence 0.7. -/
def rule1 (guessed : List (String × String) → ℚ → Guess) (anchor : GPos)
    (st : RState) : RState :=
  match st.2.filter (same_pgroup_before anchor) with
  | [c] => update_found st.1 st.2 c.2 (guessed [("series", c.1)] (7/10))
  | _ => st

/-- Rule 2: exactly one leftover leaf in the anchor's explicit group after
the anchor gets `title` at confidence 0.5. -/
def rule2 (guessed : List (String × String) → ℚ → Guess) (anchor : GPos)
    (st : RState) : RState :=
  match st.2.filter (same_egroup_after anchor) with
  | [c] => update_found st.1 st.2 c.2 (guessed [("title", c.1)] (5/10))
  | _ => st

/-- Rule 3: when no `title` is anywhere in the tree, no leftover leaf is
before the anchor in its path part, and exactly two leftover leaves are
after it in the path part, the first gets `series` and the second `title`,
both at confidence 0.4. -/
def rule3 (guessed : List (String × String) → ℚ → Guess) (anchor : GPos)
    (st : RState) : RState :=
  match st.2.filter (same_pgroup_after anchor) with
  | [c1, c2] =>
    if (find_group st.1 "title").isEmpty &&
        (st.2.filter (same_pgroup_before anchor)).isEmpty then
      let st1 := update_found st.1 st.2 c1.2 (guessed [("series", c1.1)] (4/10))
      update_found st1.1 st1.2 c2.2 (guessed [("title", c2.1)] (4/10))
    else st
  | _ => st

/-- Rule 4: exactly one leftover leaf whose path part index is the
anchor's minus one (Python int arithmetic, hence the cast) gets `series`
at confidence 0.7. -/
def rule4 (guessed : List (String × String) → ℚ → Guess) (anchor : GPos)
    (st : RState) : RState :=
  match st.2.filter (fun g => decide ((g.2.1 : Int) = (anchor.1 : Int) - 1)) with
  | [c] => update_found st.1 st.2 c.2 (guessed [("series", c.1)] (7/10))
  | _ => st

/-- matchtree.match_from_epnum_position: compute the leftover set, then
apply the four positional rules in order, each operating on the residue of
the previous ones, and return the resulting tree. -/
def match_from_epnum_position (clean : String → String)
    (guessed : List (String × String) → ℚ → Guess)
    (t : MatchTree) (anchor : GPos) : MatchTree :=
  (rule4 guessed anchor (rule3 guessed anchor (rule2 guessed anchor
    (rule1 guessed anchor (t, leftover_valid_groups clean validDefault t))))).1

/-- Invariant of claim C3: every leaf's remaining text has the length of
its original substring. -/
def lengthInv (t : MatchTree) : Prop :=
  ∀ pp ∈ t, ∀ eg ∈ pp, ∀ l ∈ eg, (l.2.1 : String).length = (l.1 : String).length

/-! ## Weak episode-number pass (guessit/transfo/guess_weak_episodes_rexps.py) -/

/-- Guess value for the episode pass: regex groups are matched strings,
the combined season/episode split produces numbers. -/
inductive GVal where
  | s (v : String)
  | n (v : Nat)
deriving DecidableEq, Repr

/-- Property map with a confidence, for the episode pass. -/
structure WGuess where
  props : List (String × GVal)
  conf : ℚ
deriving DecidableEq, Repr

/-- Result of a successful regex search: span endpoints in the text and
the named groups (`groupdict`). -/
structure WeakMatch where
  start : Nat
  stop : Nat
  groups : List (String × String)
deriving DecidableEq, Repr

/-- Modelled from the spec: `patterns.weak_episode_rexps` (guessit/patterns.py
is not part of the sources here) is a fixed priority-ordered list of
regular-expression patterns, each with a span-adjustment offset pair.  A
pattern is abstracted as its search function. -/
structure WeakPattern where
  search : String → Option WeakMatch
  spanAdjust : Int × Int

/-- Pattern loop of guess_weak_episodes_rexps: first matching pattern wins;
an episode value above 100 is split into season and episode at confidence
0.6, otherwise the raw groups are the guess at confidence 0.3. -/
def weakLoop (rexps : List WeakPattern) (s : String) :
    Option (WGuess × (Int × Int)) :=
  match rexps with
  | [] => none
  | p :: rest =>
    match p.search s with
    | none => weakLoop rest s
    | some m =>
      let span := ((m.start : Int) + p.spanAdjust.1, (m.stop : Int) + p.spanAdjust.2)
      match lookupFirst m.groups "episodeNumber" with
      | none => none
      | some es =>
        match parseNatStr es with
        | none => none
        | some epnum =>
          if 100 < epnum then
            some (⟨[("season", GVal.n (epnum / 100)),
                    ("episodeNumber", GVal.n (epnum % 100))], 6/10⟩, span)
          else
            some (⟨m.groups.map (fun kv => (kv.1, GVal.s kv.2)), 3/10⟩, span)

/-- transfo.guess_weak_episodes_rexps: skip entirely when `episodeNumber`
is already in the tree's aggregate result (`node.root.info`), else try the
patterns in order. -/
def guess_weak_episodes_rexps (rexps : List WeakPattern) (s : String)
    (rootInfo : List String) : Option (WGuess × (Int × Int)) :=
  if "episodeNumber" ∈ rootInfo then none
  else weakLoop rexps s

/-- Modelled from the spec: after a pass matches, the pipeline driver
commits the guess and updates the tree's aggregate result with the guess's
properties (spec section 4.3; the driver is not part of the sources here). -/
def commitInfo (info : List String) (g : WGuess) : List String :=
  info ++ g.props.map Prod.fst

/-! ## Language database (guessit/language.py)

Modelled from the spec: the ISO-639-2 reference table itself is loaded
from a data file (`ISO-639-2_utf-8.txt`) that is not among the sources
here; `language_matrix` is a representative subset of its rows, faithful
to the field layout described by the spec (alpha-3 bibliographic, alpha-3
terminological, alpha-2, English names, French names, `; `-separated
synonyms).  All derived tables below are translated from language.py. -/

def language_matrix : List (List String) :=
  [ ["aar", "", "aa", "Afar", "afar"],
    ["ace", "", "", "Achinese", "aceh"],
    ["alb", "sqi", "sq", "Albanian", "albanais"],
    ["arm", "hye", "hy", "Armenian", "arménien"],
    ["baq", "eus", "eu", "Basque", "basque"],
    ["chi", "zho", "zh", "Chinese", "chinois"],
    ["cze", "ces", "cs", "Czech", "tchèque"],
    ["dut", "nld", "nl", "Dutch; Flemish", "néerlandais; flamand"],
    ["eng", "", "en", "English", "anglais"],
    ["fre", "fra", "fr", "French", "français"],
    ["ger", "deu", "de", "German", "allemand"],
    ["gre", "ell", "el", "Greek, Modern (1453-)", "grec moderne (après 1453)"],
    ["ita", "", "it", "Italian", "italien"],
    ["jpn", "", "ja", "Japanese", "japonais"],
    ["por", "", "pt", "Portuguese", "portugais"],
    ["rus", "", "ru", "Russian", "russe"],
    ["spa", "", "es", "Spanish; Castilian", "espagnol; castillan"],
    ["swe", "", "sv", "Swedish", "suédois"],
    ["vie", "", "vi", "Vietnamese", "vietnamien"] ]

/-- Python `"...".split("; ")` over a character list, accumulator-based. -/
def splitSemiGo : List Char → List Char → List (List Char)
  | [], acc => [acc.reverse]
  | ';' :: ' ' :: rest, acc => acc.reverse :: splitSemiGo rest []
  | c :: rest, acc => splitSemiGo rest (c :: acc)

/-- Python `s.split("; ")`. -/
def splitSemi (s : String) : List String :=
  (splitSemiGo s.toList []).map String.mk

/-- Row field access `l[i]` (all rows of the table have five fields). -/
def rowGet (l : List String) (i : Nat) : String :=
  l.getD i ""

def lng3 : List String :=
  language_matrix.filterMap fun l =>
    if rowGet l 0 ≠ "" then some (rowGet l 0) else none

def lng3term : List String :=
  language_matrix.filterMap fun l =>
    if rowGet l 1 ≠ "" then some (rowGet l 1) else none

def lng2 : List String :=
  language_matrix.filterMap fun l =>
    if rowGet l 2 ≠ "" then some (rowGet l 2) else none

def lng_en_name : List String :=
  language_matrix.bind fun l =>
    (splitSemi (lowerStr (rowGet l 3))).filter (· ≠ "")

def lng_fr_name : List String :=
  language_matrix.bind fun l =>
    (splitSemi (lowerStr (rowGet l 4))).filter (· ≠ "")

/-- language.lng_all_names: the union frozenset of every identifier form,
as a duplicate-free list (set iteration order is arbitrary in the source;
this list order is the model's choice). -/
def lng_all_names : List String :=
  (lng3 ++ lng3term ++ lng2 ++ lng_en_name ++ lng_fr_name).eraseDups

def lng3_to_lng3term : List (String × String) :=
  language_matrix.filterMap fun l =>
    if rowGet l 1 ≠ "" then some (rowGet l 0, rowGet l 1) else none

def lng3term_to_lng3 : List (String × String) :=
  language_matrix.filterMap fun l =>
    if rowGet l 1 ≠ "" then some (rowGet l 1, rowGet l 0) else none

def lng3_to_lng2 : List (String × String) :=
  language_matrix.filterMap fun l =>
    if rowGet l 2 ≠ "" then some (rowGet l 0, rowGet l 2) else none

def lng2_to_lng3 : List (String × String) :=
  language_matrix.filterMap fun l =>
    if rowGet l 2 ≠ "" then some (rowGet l 2, rowGet l 0) else none

/-- language.lng3_to_lng_en_name: only the first English name is kept. -/
def lng3_to_lng_en_name : List (String × String) :=
  language_matrix.filterMap fun l =>
    if rowGet l 3 ≠ "" then some (rowGet l 0, (splitSemi (rowGet l 3)).headD "")
    else none

def lng_en_name_to_lng3 : List (String × String) :=
  language_matrix.bind fun l =>
    if rowGet l 3 ≠ "" then
      (splitSemi (rowGet l 3)).map fun n => (lowerStr n, rowGet l 0)
    else []

/-- language.lng3_to_lng_fr_name: only the first French name is kept. -/
def lng3_to_lng_fr_name : List (String × String) :=
  language_matrix.filterMap fun l =>
    if rowGet l 4 ≠ "" then some (rowGet l 0, (splitSemi (rowGet l 4)).headD "")
    else none

def lng_fr_name_to_lng3 : List (String × String) :=
  language_matrix.bind fun l =>
    if rowGet l 4 ≠ "" then
      (splitSemi (rowGet l 4)).map fun n => (lowerStr n, rowGet l 0)
    else []

/-- language.lng_exceptions: codes absent from the ISO list, mapped to a
`(lang, country)` pair. -/
def lng_exceptions : List (String × String × Option String) :=
  [("gr", ("gre", none))]

/-! ## Language entity (class Language in guessit/language.py) -/

/-- A Language entity: the canonical alpha-3 code plus an optional country
qualifier.  The Country collaborator class is external to the sources; the
qualifier is kept as its raw string. -/
structure LangR where
  lang : String
  country : Option String
deriving DecidableEq, Repr

/-- Error raised by the Language constructor for an unrecognized string. -/
def errMsg (s : String) : String :=
  "The given string \"" ++ s ++ "\" could not be identified as a language"

/-- Regex `(.*)\((.*)\)` of Language._with_country_regexp, with Python's
greedy backtracking: group 1 is everything before the last opening
parenthesis that still has a closing one after it, group 2 runs from there
to the last closing parenthesis.  `none` when the regex does not match. -/
def splitParen : List Char → Option (List Char × List Char)
  | [] => none
  | c :: rest =>
    match splitParen rest with
    | some (g1, g2) => some (c :: g1, g2)
    | none =>
      if c = '(' ∧ ')' ∈ rest then
        some ([], ((rest.reverse.dropWhile (· ≠ ')')).drop 1).reverse)
      else none

/-- Language.__init__, fuel-indexed.  The fuel only bounds the
`name(country)` recursion, whose argument (group 1 of the regex) is
strictly shorter than the input, so a fuel of the input length plus one is
never exhausted; see `langCore`.  The body mirrors the source: country
syntax first, then 2-letter, 3-letter (bibliographic, then
terminological), English/French name lookups, the exception table, and
finally the ValueError. -/
def langCoreF : Nat → List Char → Except String LangR
  | 0, _ => .error "recursion exhausted"
  | fuel + 1, cs =>
    match splitParen cs with
    | some (g1, g2) =>
      match langCoreF fuel g1 with
      | .ok l => .ok ⟨l.lang, some (String.mk g2)⟩
      | .error e => .error e
    | none =>
      let low := cs.map Char.toLower
      let ls := String.mk low
      let lang? : Option String :=
        if low.length = 2 then dictGet lng2_to_lng3 ls
        else if low.length = 3 then
          (if ls ∈ lng3 then some ls else dictGet lng3term_to_lng3 ls)
        else (dictGet lng_en_name_to_lng3 ls).orElse
          (fun _ => dictGet lng_fr_name_to_lng3 ls)
      match lang? with
      | some l => .ok ⟨l, none⟩
      | none =>
        match dictGet lng_exceptions ls with
        | some lc => .ok ⟨lc.1, lc.2⟩
        | none => .error (errMsg ls)

/-- Language construction from an identifier character list; a `.error`
is the constructor's ValueError. -/
def langCore (cs : List Char) : Except String LangR :=
  langCoreF (cs.length + 1) cs

/-- Language construction from an identifier string. -/
def LanguageMk (s : String) : Except String LangR :=
  langCore s.toList

/-- Language.alpha2 view (a KeyError becomes `none`). -/
def lang_alpha2 (l : LangR) : Option String :=
  dictGet lng3_to_lng2 l.lang

/-- Language.alpha3 view. -/
def lang_alpha3 (l : LangR) : String :=
  l.lang

/-- Language.alpha3term view (a KeyError becomes `none`). -/
def lang_alpha3term (l : LangR) : Option String :=
  dictGet lng3_to_lng3term l.lang

/-- Language.english_name view (a KeyError becomes `none`). -/
def lang_english_name (l : LangR) : Option String :=
  dictGet lng3_to_lng_en_name l.lang

/-- Language.french_name view (a KeyError becomes `none`). -/
def lang_french_name (l : LangR) : Option String :=
  dictGet lng3_to_lng_fr_name l.lang

/-! ## search_language (guessit/language.py) -/

/-- Common words of search_language which are never interpreted as a
language. -/
def lng_common_words : List String :=
  [ "is", "it", "am", "mad", "men", "man", "run", "sin", "st", "to",
    "no", "non", "war", "min", "new", "car", "day", "bad", "bat", "fan",
    "fry", "cop", "zen", "gay", "fat", "cherokee", "got", "an", "as",
    "cat", "her", "be", "hat", "sun", "may", "my", "mr",
    "bas", "de", "le", "son", "vo", "vf", "ne", "ca", "ce", "et", "que",
    "mal", "est", "vol", "or", "mon", "se",
    "la", "el", "del", "por", "mar",
    "ind", "arw", "ts", "ii", "bin", "chan", "ss", "san", "oss", "iii",
    "vi" ]

/-- Separator characters of search_language, the raw Python string
`[](){} \._-+` (brackets, parentheses, braces, space, backslash, dot,
underscore, dash, plus). -/
def sepChars : List Char :=
  ['[', ']', '(', ')', '\x7b', '\x7d', ' ', '\\', '.', '_', '-', '+']

/-- The lowercased text padded with one boundary space on each side,
Python `' %s ' % string.lower()`. -/
def paddedOf (s : String) : List Char :=
  ' ' :: s.toList.map Char.toLower ++ [' ']

/-- Python indexing `l[i]` for the bound checks of search_language:
`slow[pos - 1]` indexes from the end when `pos = 0`. -/
def pyGet (l : List Char) (i : Int) : Option Char :=
  if i < 0 then l.get? (l.length - (-i).toNat) else l.get? i.toNat

/-- Both neighbours of the candidate span are separator characters
(an out-of-range right neighbour fails the check; it is unreachable for
the identifiers of the table, none of which ends in a space). -/
def boundedAt (slow : List Char) (pos e : Nat) : Bool :=
  (match pyGet slow ((pos : Int) - 1) with
   | some c => sepChars.contains c
   | none => false) &&
  (match pyGet slow (e : Int) with
   | some c => sepChars.contains c
   | none => false)

/-- Allow-list check `lang_filter and language not in lang_filter`: set
membership uses Language equality, which compares canonical codes only. -/
def fltBlocks (flt : Option (List LangR)) (l : LangR) : Bool :=
  match flt with
  | none => false
  | some fs => !(fs.any fun f => f.lang = l.lang)

/-- Confidence by identifier length: 0.8 for 2 letters, 0.9 for 3, 0.3
for a full name. -/
def confOf (lang : String) : ℚ :=
  if lang.length = 2 then 8/10
  else if lang.length = 3 then 9/10
  else 3/10

/-- Result triple of a successful search: entity, span, confidence. -/
abbrev FoundT := LangR × (Int × Int) × ℚ

/-- The `for lang in lng_all_names` loop of search_language: skip common
words, look up the first occurrence only, require separator bounds, build
the entity from the matched slice (a construction failure propagates as
the ValueError does), apply the allow-list, require an alpha-2 form, and
return the entity with span offsets shifted to the unpadded text. -/
def searchLoop (flt : Option (List LangR)) (slow : List Char) :
    List String → Except String (Option FoundT)
  | [] => .ok none
  | lang :: rest =>
    if lang ∈ lng_common_words then searchLoop flt slow rest
    else
      match findSub lang.toList slow with
      | none => searchLoop flt slow rest
      | some pos =>
        if boundedAt slow pos (pos + lang.length) then
          match langCore (listSlice slow pos (pos + lang.length)) with
          | .error e => .error e
          | .ok l =>
            if fltBlocks flt l then searchLoop flt slow rest
            else if (dictGet lng3_to_lng2 l.lang).isNone then
              searchLoop flt slow rest
            else
              .ok (some (l, ((pos : Int) - 1, (pos : Int) + lang.length - 1),
                confOf lang))
        else searchLoop flt slow rest

/-- Conversion of the allow-list into a set of Language entities,
`set(Language(l) for l in lang_filter)`: the first failing construction
raises; an absent or empty list disables filtering. -/
def mapLangs : List String → Except String (List LangR)
  | [] => .ok []
  | l :: rest =>
    match langCore l.toList with
    | .error e => .error e
    | .ok lr =>
      match mapLangs rest with
      | .error e => .error e
      | .ok fs => .ok (lr :: fs)

/-- Filter preparation step of search_language (`if lang_filter:` treats
an empty list as no filter). -/
def buildFilterE : Option (List String) → Except String (Option (List LangR))
  | none => .ok none
  | some ls =>
    if ls.isEmpty then .ok none
    else
      match mapLangs ls with
      | .error e => .error e
      | .ok fs => .ok (some fs)

/-- language.search_language: prepare the allow-list, then scan the padded
lowercased text for each known identifier. -/
def search_language (s : String) (flt : Option (List String)) :
    Except String (Option FoundT) :=
  match buildFilterE flt with
  | .error e => .error e
  | .ok fset => searchLoop fset (paddedOf s) lng_all_names

/-- The length invariant is decidable, so witnesses can check it on
concrete trees. -/
instance (t : MatchTree) : Decidable (lengthInv t) := by
  unfold lengthInv
  infer_instance

/-- A one-path-part tree with one unguessed leaf before an episode-number
anchor, for the C1 witness. -/
def treeC1 : MatchTree :=
  [[[("Foo Bar", "Foo Bar", none),
     ("S01E02", "______", some (mkGuess [("episodeNumber", "2")] 1))]]]

/-- Tree for the C2 witness: an episode-number anchor first, followed by
two unguessed explicit groups in the same path part. -/
def treeC2 : MatchTree :=
  [[[("102", "___", some (mkGuess [("episodeNumber", "2")] (6/10)))],
    [("Alias", "Alias", none)],
    [("Pilot", "Pilot", none)]]]

/-- Leftover list of treeC2. -/
def leftoverC2 : List (String × GPos) :=
  [("Alias", (0, 1, 0)), ("Pilot", (0, 2, 0))]

/-- Tree for the C3 witness, satisfying the length invariant. -/
def treeC3 : MatchTree :=
  [[[("The Office", "The Office", none),
     ("S01E02", "______", some (mkGuess [("episodeNumber", "2")] 1))]],
   [[("x264", "x264", none)]]]

/-- Concrete weak pattern matching the literal digits 205 for the C4
witness. -/
def patWeak205 : WeakPattern :=
  ⟨fun s => (findSub "205".toList s.toList).map
      fun i => ⟨i, i + 3, [("episodeNumber", "205")]⟩, (0, 0)⟩

/-- Concrete weak pattern matching the literal digits 07 for the C4
witness. -/
def patWeak07 : WeakPattern :=
  ⟨fun s => (findSub "07".toList s.toList).map
      fun i => ⟨i, i + 2, [("episodeNumber", "07")]⟩, (0, 0)⟩

/-- Concrete weak pattern matching the literal digits 09 for the C5
witness. -/
def patWeak09 : WeakPattern :=
  ⟨fun s => (findSub "09".toList s.toList).map
      fun i => ⟨i, i + 2, [("episodeNumber", "09")]⟩, (0, 0)⟩

/-! ## Derived predicates and concrete data used by the claims -/

/-- An identifier the scan passes over: a common word, no occurrence at
all, a first occurrence that is not separator-bounded, or a bounded first
occurrence whose entity is filtered out or has no 2-letter form. -/
def slSkips (flt : Option (List LangR)) (slow : List Char) (lang : String) : Bool :=
  decide (lang ∈ lng_common_words) ||
  match findSub lang.toList slow with
  | none => true
  | some pos =>
    !boundedAt slow pos (pos + lang.length) ||
    (match langCore (listSlice slow pos (pos + lang.length)) with
     | .error _ => false
     | .ok l => fltBlocks flt l || (dictGet lng3_to_lng2 l.lang).isNone)

/-- An identifier the scan returns: not a common word, first occurrence
separator-bounded, entity construction succeeds, the allow-list does not
block it, and it has a 2-letter form. -/
def slHits (flt : Option (List LangR)) (slow : List Char) (lang : String) : Bool :=
  !decide (lang ∈ lng_common_words) &&
  match findSub lang.toList slow with
  | none => false
  | some pos =>
    boundedAt slow pos (pos + lang.length) &&
    (match langCore (listSlice slow pos (pos + lang.length)) with
     | .error _ => false
     | .ok l => !fltBlocks flt l && (dictGet lng3_to_lng2 l.lang).isSome)

/-- Every canonical code a successful construction can produce. -/
def returnableCodes : List String :=
  lng2_to_lng3.map Prod.snd ++ lng3 ++ lng3term_to_lng3.map Prod.snd ++
    lng_en_name_to_lng3.map Prod.snd ++ lng_fr_name_to_lng3.map Prod.snd ++
    lng_exceptions.map (fun kv => kv.2.1)

/-- Decidable equality for Except results, so concrete constructions can
be checked by decide. -/
instance {α β : Type} [DecidableEq α] [DecidableEq β] :
    DecidableEq (Except α β) := fun a b =>
  match a, b with
  | .error x, .error y =>
    if h : x = y then isTrue (by rw [h])
    else isFalse (by intro hc; cases hc; exact h rfl)
  | .error _, .ok _ => isFalse (by intro hc; cases hc)
  | .ok _, .error _ => isFalse (by intro hc; cases hc)
  | .ok x, .ok y =>
    if h : x = y then isTrue (by rw [h])
    else isFalse (by intro hc; cases hc; exact h rfl)

/-- First English name of a table row, lowercased, as the constructor
would receive it. -/
def firstEnLower (row : List String) : String :=
  lowerStr ((splitSemi (rowGet row 3)).headD "")

/-- Group 1 of the country regex is a strict prefix of the input (it stops
before an opening parenthesis), so the constructor's recursion terminates. -/
theorem splitParen_fst_lt (cs g1 g2 : List Char)
    (h : splitParen cs = some (g1, g2)) : g1.length < cs.length := by
  induction cs generalizing g1 g2 with
  | nil => simp [splitParen] at h
  | cons c rest ih =>
    rw [splitParen] at h
    split at h
    · rename_i a b heq
      simp only [Option.some.injEq, Prod.mk.injEq] at h
      have ha := ih a b heq
      rw [← h.1]
      simpa using Nat.succ_lt_succ ha
    · split at h
      · simp only [Option.some.injEq, Prod.mk.injEq] at h
        rw [← h.1]
        simp
      · simp at h

/-! ## Helper lemmas: match tree -/

theorem getD_nil_cases {α : Type} (l : List (List α)) (i : Nat) :
    l.getD i [] ∈ l ∨ l.getD i [] = [] := by
  by_cases hi : i < l.length
  · left
    rw [List.getD_eq_getElem l [] hi]
    exact List.getElem_mem hi
  · right
    exact List.getD_eq_default l [] (Nat.le_of_not_lt hi)

theorem lengthInv_update (t : MatchTree) (l : List (String × GPos))
    (p : GPos) (g : Guess) (h : lengthInv t) :
    lengthInv (update_found t l p g).1 := by
  intro pp hpp eg heg leaf hleaf
  simp only [update_found] at hpp
  rcases List.mem_or_eq_of_mem_set hpp with hin | heq
  · exact h pp hin eg heg leaf hleaf
  · subst heq
    rcases List.mem_or_eq_of_mem_set heg with hin2 | heq2
    · rcases getD_nil_cases t p.1 with hmem | hnil
      · exact h _ hmem eg hin2 leaf hleaf
      · rw [hnil] at hin2
        cases hin2
    · subst heq2
      rcases List.mem_or_eq_of_mem_set hleaf with hin3 | heq3
      · rcases getD_nil_cases (t.getD p.1 []) p.2.1 with hmem2 | hnil2
        · rcases getD_nil_cases t p.1 with hmem | hnil
          · exact h _ hmem _ hmem2 leaf hin3
          · rw [hnil] at hmem2
            cases hmem2
        · rw [hnil2] at hin3
          cases hin3
      · subst heq3
        show (String.mk (List.replicate _ deleted)).length = _
        rw [show ∀ l : List Char, (String.mk l).length = l.length from fun _ => rfl]
        exact List.length_replicate _ _

theorem lengthInv_rule1 (guessed : List (String × String) → ℚ → Guess)
    (anchor : GPos) (st : RState) (h : lengthInv st.1) :
    lengthInv (rule1 guessed anchor st).1 := by
  unfold rule1
  split
  · exact lengthInv_update _ _ _ _ h
  · exact h

theorem lengthInv_rule2 (guessed : List (String × String) → ℚ → Guess)
    (anchor : GPos) (st : RState) (h : lengthInv st.1) :
    lengthInv (rule2 guessed anchor st).1 := by
  unfold rule2
  split
  · exact lengthInv_update _ _ _ _ h
  · exact h

theorem lengthInv_rule3 (guessed : List (String × String) → ℚ → Guess)
    (anchor : GPos) (st : RState) (h : lengthInv st.1) :
    lengthInv (rule3 guessed anchor st).1 := by
  unfold rule3
  split
  · split
    · exact lengthInv_update _ _ _ _ (lengthInv_update _ _ _ _ h)
    · exact h
  · exact h

theorem lengthInv_rule4 (guessed : List (String × String) → ℚ → Guess)
    (anchor : GPos) (st : RState) (h : lengthInv st.1) :
    lengthInv (rule4 guessed anchor st).1 := by
  unfold rule4
  split
  · exact lengthInv_update _ _ _ _ h
  · exact h

theorem rule2_of_nil (guessed : List (String × String) → ℚ → Guess)
    (anchor : GPos) (st : RState) (h : st.2 = []) :
    rule2 guessed anchor st = st := by
  unfold rule2
  rw [h]
  rfl

theorem rule3_of_nil (guessed : List (String × String) → ℚ → Guess)
    (anchor : GPos) (st : RState) (h : st.2 = []) :
    rule3 guessed anchor st = st := by
  unfold rule3
  rw [h]
  rfl

theorem rule4_of_nil (guessed : List (String × String) → ℚ → Guess)
    (anchor : GPos) (st : RState) (h : st.2 = []) :
    rule4 guessed anchor st = st := by
  unfold rule4
  rw [h]
  rfl

/-! ## Claims C1, C2, C3 -/

/-- C1: when exactly one leftover leaf lies in the anchor's path part
before the anchor, rule 1 assigns it a `series` guess at confidence 0.7
and removes it from the leftover set; and when that leaf is the only
leftover leaf (hence none lies after the anchor), the whole call changes
nothing else: the result is exactly the tree with that single commit, so
rule 4 does not additionally fire. -/
theorem c1_rule1_series_and_no_rule4 :
    (∀ (t : MatchTree) (l : List (String × GPos)) (anchor : GPos)
        (s : String) (p : GPos),
      l.filter (same_pgroup_before anchor) = [(s, p)] →
      rule1 mkGuess anchor (t, l) =
        update_found t l p (mkGuess [("series", s)] (7/10))) ∧
    (∀ (clean : String → String) (t : MatchTree) (anchor : GPos)
        (s : String) (p : GPos),
      leftover_valid_groups clean validDefault t = [(s, p)] →
      same_pgroup_before anchor (s, p) = true →
      match_from_epnum_position clean mkGuess t anchor =
        (update_found t [(s, p)] p (mkGuess [("series", s)] (7/10))).1) := by
  constructor
  · intro t l anchor s p h
    unfold rule1
    rw [h]
  · intro clean t anchor s p h1 h2
    have hfl : [(s, p)].filter (same_pgroup_before anchor) = [(s, p)] := by
      simp [List.filter, h2]
    have hr1 : rule1 mkGuess anchor (t, [(s, p)]) =
        update_found t [(s, p)] p (mkGuess [("series", s)] (7/10)) := by
      unfold rule1
      rw [hfl]
    have hnil : (update_found t [(s, p)] p (mkGuess [("series", s)] (7/10))).2 = [] := by
      simp [update_found]
    unfold match_from_epnum_position
    rw [h1, hr1, rule2_of_nil _ _ _ hnil, rule3_of_nil _ _ _ hnil,
      rule4_of_nil _ _ _ hnil]

/-- C2: the two-sided split rule fires only when, on the residue left by
rules 1 and 2, there is no `title` anywhere in the tree, no leftover leaf
before the anchor in its path part, and exactly two leftover leaves after
it in the path part; it then assigns the first `series` and the second
`title`, both at confidence 0.4, removing both from the leftover set.  The
first conjunct records that `match_from_epnum_position` feeds rule 3 the
state produced by rules 1 and 2 (so a title committed by rule 2 counts);
the second shows the rule firing; the third that it does nothing when any
precondition fails. -/
theorem c2_two_sided_split :
    (∀ (clean : String → String) (t : MatchTree) (anchor : GPos),
      match_from_epnum_position clean mkGuess t anchor =
        (rule4 mkGuess anchor (rule3 mkGuess anchor (rule2 mkGuess anchor
          (rule1 mkGuess anchor
            (t, leftover_valid_groups clean validDefault t))))).1) ∧
    (∀ (t : MatchTree) (l : List (String × GPos)) (anchor : GPos)
        (x y : String × GPos),
      find_group t "title" = [] →
      l.filter (same_pgroup_before anchor) = [] →
      l.filter (same_pgroup_after anchor) = [x, y] →
      rule3 mkGuess anchor (t, l) =
        update_found (update_found t l x.2 (mkGuess [("series", x.1)] (4/10))).1
          (update_found t l x.2 (mkGuess [("series", x.1)] (4/10))).2
          y.2 (mkGuess [("title", y.1)] (4/10))) ∧
    (∀ (t : MatchTree) (l : List (String × GPos)) (anchor : GPos),
      (find_group t "title" ≠ [] ∨
       l.filter (same_pgroup_before anchor) ≠ [] ∨
       (l.filter (same_pgroup_after anchor)).length ≠ 2) →
      rule3 mkGuess anchor (t, l) = (t, l)) := by
  refine ⟨fun clean t anchor => rfl, ?_, ?_⟩
  · intro t l anchor x y h1 h2 h3
    unfold rule3
    dsimp only
    rw [h3, h1, h2]
    rfl
  · intro t l anchor h
    unfold rule3
    dsimp only
    split
    · rename_i c1 c2 heq
      rcases h with h | h | h
      · have hne : (find_group t "title").isEmpty = false := by
          cases hfg : find_group t "title" with
          | nil => exact absurd hfg h
          | cons a as => rfl
        rw [hne]
        rfl
      · have hne : (l.filter (same_pgroup_before anchor)).isEmpty = false := by
          cases hfg : l.filter (same_pgroup_before anchor) with
          | nil => exact absurd hfg h
          | cons a as => rfl
        rw [hne]
        simp
      · exact absurd (by rw [heq]; rfl) h
    · rfl

/-- C3: for every match tree in which every leaf's remaining text has the
length of its original substring, a call to match_from_epnum_position
preserves that invariant: every commit substitutes filler of the original
substring's length, and no other leaf changes. -/
theorem c3_length_invariant (clean : String → String)
    (guessed : List (String × String) → ℚ → Guess)
    (t : MatchTree) (anchor : GPos) (h : lengthInv t) :
    lengthInv (match_from_epnum_position clean guessed t anchor) := by
  unfold match_from_epnum_position
  exact lengthInv_rule4 _ _ _ (lengthInv_rule3 _ _ _
    (lengthInv_rule2 _ _ _ (lengthInv_rule1 _ _ _ h)))

/-- Witness for C1 at a concrete tree: the leftover set is the single
leaf before the anchor and the call commits exactly the one series guess. -/
theorem c1_witness :
    leftover_valid_groups id validDefault treeC1 = [("Foo Bar", (0, 0, 0))] ∧
    same_pgroup_before (0, 0, 1) ("Foo Bar", (0, 0, 0)) = true ∧
    match_from_epnum_position id mkGuess treeC1 (0, 0, 1) =
      (update_found treeC1 [("Foo Bar", (0, 0, 0))] (0, 0, 0)
        (mkGuess [("series", "Foo Bar")] (7/10))).1 :=
  ⟨by decide, by decide,
   c1_rule1_series_and_no_rule4.2 id treeC1 (0, 0, 1) "Foo Bar" (0, 0, 0)
     (by decide) (by decide)⟩

/-- Witness for C2 at a concrete state: both preconditions checked, rule 3
commits series then title at confidence 0.4. -/
theorem c2_witness :
    find_group treeC2 "title" = [] ∧
    leftoverC2.filter (same_pgroup_before (0, 0, 0)) = [] ∧
    leftoverC2.filter (same_pgroup_after (0, 0, 0)) =
      [("Alias", (0, 1, 0)), ("Pilot", (0, 2, 0))] ∧
    rule3 mkGuess (0, 0, 0) (treeC2, leftoverC2) =
      update_found
        (update_found treeC2 leftoverC2 (0, 1, 0)
          (mkGuess [("series", "Alias")] (4/10))).1
        (update_found treeC2 leftoverC2 (0, 1, 0)
          (mkGuess [("series", "Alias")] (4/10))).2
        (0, 2, 0) (mkGuess [("title", "Pilot")] (4/10)) :=
  ⟨by decide, by decide, by decide,
   c2_two_sided_split.2.1 treeC2 leftoverC2 (0, 0, 0)
     ("Alias", (0, 1, 0)) ("Pilot", (0, 2, 0))
     (by decide) (by decide) (by decide)⟩

/-- Witness for C3 at a concrete tree. -/
theorem c3_witness :
    lengthInv treeC3 ∧
    lengthInv (match_from_epnum_position id mkGuess treeC3 (0, 0, 1)) :=
  ⟨by decide, c3_length_invariant id mkGuess treeC3 (0, 0, 1) (by decide)⟩

/-! ## Helper lemmas: weak episode pass -/

theorem lookupFirst_mem_keys {α : Type} (d : List (String × α)) (k : String)
    (v : α) (h : lookupFirst d k = some v) : k ∈ d.map Prod.fst := by
  induction d with
  | nil => simp [lookupFirst] at h
  | cons kv rest ih =>
    rw [lookupFirst] at h
    split at h
    · rename_i hk
      simp [← hk]
    · simp [ih h]

theorem lookupFirst_map_snd {α β : Type} (f : α → β) (d : List (String × α))
    (k : String) :
    lookupFirst (d.map fun kv => (kv.1, f kv.2)) k = (lookupFirst d k).map f := by
  induction d with
  | nil => rfl
  | cons kv rest ih =>
    rw [List.map_cons, lookupFirst, lookupFirst]
    split
    · rfl
    · exact ih

theorem weakLoop_skip (pre rexps : List WeakPattern) (s : String)
    (h : ∀ q ∈ pre, q.search s = none) :
    weakLoop (pre ++ rexps) s = weakLoop rexps s := by
  induction pre with
  | nil => rfl
  | cons q pre ih =>
    rw [List.cons_append, weakLoop, h q (by simp)]
    exact ih fun q2 hq2 => h q2 (by simp [hq2])

theorem weakLoop_has_epnum (rexps : List WeakPattern) (s : String)
    (g : WGuess) (sp : Int × Int) (h : weakLoop rexps s = some (g, sp)) :
    "episodeNumber" ∈ g.props.map Prod.fst := by
  induction rexps with
  | nil => simp [weakLoop] at h
  | cons p rest ih =>
    rw [weakLoop] at h
    split at h
    · exact ih h
    · rename_i m hm
      split at h
      · cases h
      · rename_i es hes
        split at h
        · cases h
        · split at h
          · simp only [Option.some.injEq, Prod.mk.injEq] at h
            rw [← h.1]
            simp
          · simp only [Option.some.injEq, Prod.mk.injEq] at h
            rw [← h.1]
            have hk := lookupFirst_mem_keys m.groups "episodeNumber" es hes
            simpa using hk

/-! ## Claims C4, C5 -/

/-- C4: for a leaf text matched by the first applicable weak-episode
pattern (when episodeNumber is not already resolved), with `v` the numeric
value of the matched `episodeNumber` group: if `v > 100` the pass returns
season `v / 100` and episodeNumber `v % 100` at confidence 0.6, otherwise
it returns the raw groups — whose `episodeNumber` entry is the matched
digit string of numeric value `v` — at confidence 0.3; in both cases the
span is the match span shifted by the pattern's adjustment pair. -/
theorem c4_weak_episode_values :
    ∀ (pre rest : List WeakPattern) (p : WeakPattern) (s : String)
      (info : List String) (m : WeakMatch) (es : String) (v : Nat),
      "episodeNumber" ∉ info →
      (∀ q ∈ pre, q.search s = none) →
      p.search s = some m →
      lookupFirst m.groups "episodeNumber" = some es →
      parseNatStr es = some v →
      guess_weak_episodes_rexps (pre ++ p :: rest) s info =
        some ((if 100 < v then
                 ⟨[("season", GVal.n (v / 100)),
                   ("episodeNumber", GVal.n (v % 100))], 6/10⟩
               else ⟨m.groups.map fun kv => (kv.1, GVal.s kv.2), 3/10⟩),
              ((m.start : Int) + p.spanAdjust.1,
               (m.stop : Int) + p.spanAdjust.2)) ∧
      lookupFirst (m.groups.map fun kv => (kv.1, GVal.s kv.2)) "episodeNumber" =
        some (GVal.s es) := by
  intro pre rest p s info m es v hinfo hpre hp hlk hv
  constructor
  · unfold guess_weak_episodes_rexps
    rw [if_neg hinfo, weakLoop_skip pre (p :: rest) s hpre, weakLoop]
    simp only [hp, hlk, hv]
    split
    · rfl
    · rfl
  · rw [lookupFirst_map_snd GVal.s m.groups "episodeNumber", hlk]
    rfl

/-- C5: the pass returns `(none, none)` without trying any pattern when
`episodeNumber` is already in the tree's aggregate result; consequently,
once a successful run's guess is committed to the aggregate, running the
pass again is a no-op. -/
theorem c5_property_guard_idempotent :
    (∀ (rexps : List WeakPattern) (s : String) (info : List String),
      "episodeNumber" ∈ info →
      guess_weak_episodes_rexps rexps s info = none) ∧
    (∀ (rexps rexps2 : List WeakPattern) (s s2 : String) (info : List String)
        (g : WGuess) (sp : Int × Int),
      guess_weak_episodes_rexps rexps s info = some (g, sp) →
      guess_weak_episodes_rexps rexps2 s2 (commitInfo info g) = none) := by
  constructor
  · intro rexps s info h
    unfold guess_weak_episodes_rexps
    rw [if_pos h]
  · intro rexps rexps2 s s2 info g sp h
    unfold guess_weak_episodes_rexps at h
    split at h
    · cases h
    · have hk := weakLoop_has_epnum rexps s g sp h
      unfold guess_weak_episodes_rexps
      rw [if_pos]
      unfold commitInfo
      exact List.mem_append_right info hk

/-- Witness for C4: a raw 205 yields season 2, episode 5 at confidence
0.6, and a bare 07 yields the matched digit string at confidence 0.3. -/
theorem c4_witness :
    guess_weak_episodes_rexps [patWeak205] "Show.205.avi" [] =
      some (⟨[("season", GVal.n 2), ("episodeNumber", GVal.n 5)], 6/10⟩, (5, 8)) ∧
    guess_weak_episodes_rexps [patWeak07] "Show.07.avi" [] =
      some (⟨[("episodeNumber", GVal.s "07")], 3/10⟩, (5, 7)) :=
  ⟨(c4_weak_episode_values [] [] patWeak205 "Show.205.avi" []
      ⟨5, 8, [("episodeNumber", "205")]⟩ "205" 205
      (by simp) (by simp) (by decide) (by decide) (by decide)).1,
   (c4_weak_episode_values [] [] patWeak07 "Show.07.avi" []
      ⟨5, 7, [("episodeNumber", "07")]⟩ "07" 7
      (by simp) (by simp) (by decide) (by decide) (by decide)).1⟩

/-- Witness for C5: after the first run's guess is committed to the
aggregate result, the second run returns nothing. -/
theorem c5_witness :
    guess_weak_episodes_rexps [patWeak09] "Show.09.avi" [] =
      some (⟨[("episodeNumber", GVal.s "09")], 3/10⟩, (5, 7)) ∧
    guess_weak_episodes_rexps [patWeak09] "Show.09.avi"
      (commitInfo [] ⟨[("episodeNumber", GVal.s "09")], 3/10⟩) = none :=
  ⟨by rfl,
   c5_property_guard_idempotent.2 [patWeak09] [patWeak09] "Show.09.avi"
     "Show.09.avi" [] ⟨[("episodeNumber", GVal.s "09")], 3/10⟩ (5, 7) (by rfl)⟩

/-! ## Helper lemmas: search_language -/

theorem findSub_prefix (pat : List Char) :
    ∀ (hay : List Char) (i : Nat), findSub pat hay = some i →
      pat.isPrefixOf (hay.drop i) = true := by
  intro hay
  induction hay with
  | nil =>
    intro i h
    rw [findSub] at h
    split at h
    · rename_i hp
      simp only [Option.some.injEq] at h
      rw [← h, List.drop_nil]
      rw [List.isEmpty_iff] at hp
      rw [hp]
      rfl
    · cases h
  | cons c t ih =>
    intro i h
    rw [findSub] at h
    split at h
    · rename_i hp
      simp only [Option.some.injEq] at h
      rw [← h]
      exact hp
    · cases hf : findSub pat t with
      | none => rw [hf] at h; cases h
      | some j =>
        rw [hf] at h
        simp only [Option.map_some', Option.some.injEq] at h
        rw [← h]
        exact ih j hf

theorem boundedAt_lt (slow : List Char) (pos e : Nat)
    (h : boundedAt slow pos e = true) : e < slow.length := by
  unfold boundedAt at h
  have hb := (Bool.and_eq_true _ _).mp h |>.2
  cases hg : pyGet slow (e : Int) with
  | none => rw [hg] at hb; cases hb
  | some c =>
    unfold pyGet at hg
    rw [if_neg (by omega)] at hg
    have : (e : Int).toNat = e := Int.toNat_ofNat e
    rw [this] at hg
    obtain ⟨hlt, -⟩ := List.get?_eq_some.mp hg
    exact hlt

/-- No identifier of the table is empty or starts with a space (so a match
can never start at offset 0 of the padded text). -/
theorem lng_names_head : ∀ n ∈ lng_all_names, n.toList.headD ' ' ≠ ' ' := by
  decide

theorem searchLoop_some_spec :
    ∀ (names : List String) (flt : Option (List LangR)) (slow : List Char)
      (L : LangR) (a b : Int) (c : ℚ),
      searchLoop flt slow names = .ok (some (L, (a, b), c)) →
      ∃ lang ∈ names, lang ∉ lng_common_words ∧ ∃ pos : Nat,
        findSub lang.toList slow = some pos ∧
        boundedAt slow pos (pos + lang.length) = true ∧
        langCore (listSlice slow pos (pos + lang.length)) = .ok L ∧
        a = (pos : Int) - 1 ∧ b = (pos : Int) + lang.length - 1 ∧
        c = confOf lang := by
  intro names
  induction names with
  | nil =>
    intro flt slow L a b c h
    rw [searchLoop] at h
    cases h
  | cons lang rest ih =>
    intro flt slow L a b c h
    rw [searchLoop] at h
    split at h
    · obtain ⟨l2, hm, hrest⟩ := ih flt slow L a b c h
      exact ⟨l2, List.mem_cons_of_mem _ hm, hrest⟩
    · rename_i hcom
      split at h
      · obtain ⟨l2, hm, hrest⟩ := ih flt slow L a b c h
        exact ⟨l2, List.mem_cons_of_mem _ hm, hrest⟩
      · rename_i pos hfind
        split at h
        · rename_i hbound
          split at h
          · cases h
          · rename_i lr hok
            split at h
            · obtain ⟨l2, hm, hrest⟩ := ih flt slow L a b c h
              exact ⟨l2, List.mem_cons_of_mem _ hm, hrest⟩
            · split at h
              · obtain ⟨l2, hm, hrest⟩ := ih flt slow L a b c h
                exact ⟨l2, List.mem_cons_of_mem _ hm, hrest⟩
              · simp only [Except.ok.injEq, Option.some.injEq, Prod.mk.injEq] at h
                obtain ⟨hL, ⟨ha, hb⟩, hc⟩ := h
                exact ⟨lang, List.mem_cons_self _ _, hcom, pos, hfind, hbound,
                  hL ▸ hok, ha.symm, hb.symm, hc.symm⟩
        · obtain ⟨l2, hm, hrest⟩ := ih flt slow L a b c h
          exact ⟨l2, List.mem_cons_of_mem _ hm, hrest⟩

/-! ## Claim C6 -/

/-- C6: `search_language "movie [en].avi"` returns the entity built from
`"en"`, span `(7, 9)` in the unpadded string, confidence 0.8; and in
general every successful search returns confidence 0.8 for a 2-letter
identifier, 0.9 for 3 letters and 0.3 for a full name, with a span that
locates the identifier inside the original unpadded (lowercased) text. -/
theorem c6_search_language_spans_confidences :
    (search_language "movie [en].avi" none =
        .ok (some (⟨"eng", none⟩, (7, 9), 8/10)) ∧
      LanguageMk "en" = .ok ⟨"eng", none⟩) ∧
    (∀ (s : String) (flt : Option (List String)) (L : LangR) (a b : Int)
        (c : ℚ),
      search_language s flt = .ok (some (L, (a, b), c)) →
      ∃ lang ∈ lng_all_names, ∃ pos : Nat,
        1 ≤ pos ∧ a = (pos : Int) - 1 ∧ b = a + lang.length ∧
        ((s.toList.map Char.toLower).drop (pos - 1)).take lang.toList.length =
          lang.toList ∧
        c = (if lang.length = 2 then (8:ℚ)/10
             else if lang.length = 3 then (9:ℚ)/10 else (3:ℚ)/10)) := by
  constructor
  · exact ⟨by rfl, by rfl⟩
  · intro s flt L a b c h
    unfold search_language at h
    split at h
    · cases h
    · obtain ⟨lang, hmem, hcom, pos, hfind, hbound, hok, ha, hb, hc⟩ :=
        searchLoop_some_spec lng_all_names _ (paddedOf s) L a b c h
      have hpre := findSub_prefix lang.toList (paddedOf s) pos hfind
      have hhead := lng_names_head lang hmem
      have hpos : 1 ≤ pos := by
        by_contra hlt
        have hp0 : pos = 0 := by omega
        rw [hp0, List.drop_zero] at hpre
        cases hl : lang.toList with
        | nil => rw [hl] at hhead; exact hhead rfl
        | cons c0 cs =>
          rw [hl] at hpre
          unfold paddedOf at hpre
          simp only [List.isPrefixOf, Bool.and_eq_true, beq_iff_eq] at hpre
          rw [hl] at hhead
          exact hhead (by simp [hpre.1])
      have hlen : lang.length = lang.toList.length := rfl
      have hplt := boundedAt_lt (paddedOf s) pos (pos + lang.length) hbound
      have hpadlen : (paddedOf s).length = (s.toList.map Char.toLower).length + 2 := by
        unfold paddedOf
        simp
      refine ⟨lang, hmem, pos, hpos, ha, by omega, ?_, by rw [hc]; rfl⟩
      have hdrop : (paddedOf s).drop pos =
          ((s.toList.map Char.toLower) ++ [' ']).drop (pos - 1) := by
        unfold paddedOf
        rw [show pos = (pos - 1) + 1 by omega]
        rfl
      rw [hdrop] at hpre
      obtain ⟨t, ht⟩ := List.isPrefixOf_iff_prefix.mp hpre
      rw [List.drop_append_of_le_length (by omega)] at ht
      have hlow : (s.toList.map Char.toLower).length = s.length := by simp
      have hplt2 : pos + lang.length < s.length + 2 := by
        rw [hpadlen, hlow] at hplt
        exact hplt
      have hbound2 : lang.toList.length ≤
          ((s.toList.map Char.toLower).drop (pos - 1)).length := by
        rw [List.length_drop, hlow]
        omega
      have htake := congrArg (List.take lang.toList.length) ht
      rw [List.take_left] at htake
      rw [List.take_append_of_le_length hbound2] at htake
      exact htake.symm

/-- Witness for C6's general part at the concrete input of its first part. -/
theorem c6_witness :
    ∃ lang ∈ lng_all_names, ∃ pos : Nat,
      1 ≤ pos ∧ (7 : Int) = (pos : Int) - 1 ∧ (9 : Int) = 7 + lang.length ∧
      (("movie [en].avi".toList.map Char.toLower).drop (pos - 1)).take
        lang.toList.length = lang.toList ∧
      (8:ℚ)/10 = (if lang.length = 2 then (8:ℚ)/10
                  else if lang.length = 3 then (9:ℚ)/10 else (3:ℚ)/10) :=
  c6_search_language_spans_confidences.2 "movie [en].avi" none ⟨"eng", none⟩
    7 9 (8/10) (by rfl)

/-! ## Claim C7 -/

theorem searchLoop_skip_head (flt : Option (List LangR)) (slow : List Char)
    (lang : String) (rest : List String)
    (h : slSkips flt slow lang = true) :
    searchLoop flt slow (lang :: rest) = searchLoop flt slow rest := by
  unfold slSkips at h
  rw [searchLoop]
  rw [Bool.or_eq_true, decide_eq_true_eq] at h
  by_cases hcom : lang ∈ lng_common_words
  · rw [if_pos hcom]
  · rw [if_neg hcom]
    replace h := h.resolve_left hcom
    cases hf : findSub lang.toList slow with
    | none => rfl
    | some pos =>
      rw [hf] at h
      dsimp only at h ⊢
      cases hbd : boundedAt slow pos (pos + lang.length) with
      | false => rw [if_neg (by simp)]
      | true =>
        rw [hbd] at h
        simp only [Bool.not_true, Bool.false_or] at h
        rw [if_pos rfl]
        cases hok : langCore (listSlice slow pos (pos + lang.length)) with
        | error e =>
          rw [hok] at h
          simp at h
        | ok l =>
          rw [hok] at h
          dsimp only at h ⊢
          rw [Bool.or_eq_true] at h
          rcases h with h | h
          · rw [if_pos h]
          · by_cases hfb : fltBlocks flt l = true
            · rw [if_pos hfb]
            · rw [if_neg hfb, if_pos h]

theorem searchLoop_all_skip (flt : Option (List LangR)) (slow : List Char) :
    ∀ (names : List String),
      (∀ lang ∈ names, slSkips flt slow lang = true) →
      searchLoop flt slow names = .ok none := by
  intro names
  induction names with
  | nil => intro _; rfl
  | cons lang rest ih =>
    intro h
    rw [searchLoop_skip_head flt slow lang rest (h lang (List.mem_cons_self _ _))]
    exact ih fun l2 hl2 => h l2 (List.mem_cons_of_mem _ hl2)

theorem searchLoop_hit (flt : Option (List LangR)) (slow : List Char) :
    ∀ (names : List String) (lang0 : String),
      (∀ lang ∈ names, slSkips flt slow lang = true ∨ slHits flt slow lang = true) →
      lang0 ∈ names → slHits flt slow lang0 = true →
      ∃ r, searchLoop flt slow names = .ok (some r) := by
  intro names
  induction names with
  | nil =>
    intro lang0 _ h0 _
    cases h0
  | cons lang rest ih =>
    intro lang0 hall h0 hhit
    cases hh : slHits flt slow lang with
    | true =>
      unfold slHits at hh
      rw [Bool.and_eq_true, Bool.not_eq_true', decide_eq_false_iff_not] at hh
      obtain ⟨hcom, hh⟩ := hh
      rw [searchLoop, if_neg hcom]
      cases hf : findSub lang.toList slow with
      | none => rw [hf] at hh; cases hh
      | some pos =>
        rw [hf] at hh
        dsimp only at hh ⊢
        rw [Bool.and_eq_true] at hh
        obtain ⟨hbd, hh⟩ := hh
        rw [if_pos hbd]
        cases hok : langCore (listSlice slow pos (pos + lang.length)) with
        | error e =>
          rw [hok] at hh
          simp at hh
        | ok l =>
          rw [hok] at hh
          dsimp only at hh ⊢
          rw [Bool.and_eq_true, Bool.not_eq_true'] at hh
          obtain ⟨hfb, hsome⟩ := hh
          rw [if_neg (by simp [hfb])]
          cases hd : dictGet lng3_to_lng2 l.lang with
          | none =>
            rw [hd] at hsome
            simp at hsome
          | some v =>
            rw [if_neg (by simp)]
            exact ⟨_, rfl⟩
    | false =>
      have hlang0 : lang0 ∈ rest := by
        rcases List.mem_cons.mp h0 with he | hr
        · rw [he] at hhit
          rw [hhit] at hh
          cases hh
        · exact hr
      have hskip : slSkips flt slow lang = true := by
        rcases hall lang (List.mem_cons_self _ _) with hs | hs
        · exact hs
        · rw [hs] at hh
          cases hh
      rw [searchLoop_skip_head flt slow lang rest hskip]
      exact ih lang0 (fun l2 hl2 => hall l2 (List.mem_cons_of_mem _ hl2))
        hlang0 hhit

/-- C7 counterexample: in `"movie vie.avi"` the identifier `vie`
(Vietnamese, not a common word, valid entity with 2-letter form `vi`, no
filter) occurs separator-bounded at offset 7 of the padded text, yet
search_language returns the none triple, because only the first occurrence
of an identifier (here inside `movie`, unbounded) is ever examined. -/
theorem c7_counterexample :
    "vie" ∈ lng_all_names ∧
    "vie" ∉ lng_common_words ∧
    listSlice (paddedOf "movie vie.avi") 7 10 = "vie".toList ∧
    boundedAt (paddedOf "movie vie.avi") 7 10 = true ∧
    langCore "vie".toList = .ok ⟨"vie", none⟩ ∧
    (dictGet lng3_to_lng2 "vie").isSome = true ∧
    search_language "movie vie.avi" none = .ok none :=
  ⟨by decide, by decide, by decide, by decide, by rfl, by decide, by rfl⟩

/-- C7 (amended): an identifier qualifies only if its FIRST occurrence in
the padded lowercased text is separator-bounded (a later bounded
occurrence is never examined), it builds a valid entity, passes the
allow-list and has a 2-letter form; when some identifier qualifies — and
no identifier's scan raises a construction error — the search returns a
non-none triple, and when every identifier is skipped it returns the none
triple. -/
theorem c7_first_occurrence_qualifies :
    (∀ (s : String) (flt : Option (List String)) (fset : Option (List LangR))
        (lang0 : String),
      buildFilterE flt = .ok fset →
      (∀ lang ∈ lng_all_names, slSkips fset (paddedOf s) lang = true ∨
        slHits fset (paddedOf s) lang = true) →
      lang0 ∈ lng_all_names →
      slHits fset (paddedOf s) lang0 = true →
      ∃ r, search_language s flt = .ok (some r)) ∧
    (∀ (s : String) (flt : Option (List String)) (fset : Option (List LangR)),
      buildFilterE flt = .ok fset →
      (∀ lang ∈ lng_all_names, slSkips fset (paddedOf s) lang = true) →
      search_language s flt = .ok none) := by
  constructor
  · intro s flt fset lang0 hbf hall hmem hhit
    unfold search_language
    rw [hbf]
    exact searchLoop_hit fset (paddedOf s) lng_all_names lang0 hall hmem hhit
  · intro s flt fset hbf hall
    unfold search_language
    rw [hbf]
    exact searchLoop_all_skip fset (paddedOf s) lng_all_names hall

/-- Witness for C7's amended statement at `"movie [en].avi"` with `en` as
the qualifying identifier. -/
theorem c7_witness :
    ∃ r, search_language "movie [en].avi" none = .ok (some r) :=
  c7_first_occurrence_qualifies.1 "movie [en].avi" none none "en"
    (by rfl) (by decide) (by decide) (by decide)

/-! ## Claim C8 -/

theorem dictGet_val_mem {α : Type} (d : List (String × α)) (k : String)
    (v : α) (h : dictGet d k = some v) : v ∈ d.map Prod.snd := by
  induction d with
  | nil => simp [dictGet] at h
  | cons kv rest ih =>
    rw [dictGet] at h
    split at h
    · rename_i v1 heq
      simp only [Option.some.injEq] at h
      subst h
      exact List.mem_cons_of_mem _ (ih heq)
    · split at h
      · simp only [Option.some.injEq] at h
        subst h
        exact List.mem_cons_self _ _
      · cases h

theorem mem_returnable_lng2 (x : String)
    (hm : x ∈ lng2_to_lng3.map Prod.snd) : x ∈ returnableCodes := by
  simp only [returnableCodes, List.mem_append]
  exact Or.inl (Or.inl (Or.inl (Or.inl (Or.inl hm))))

theorem mem_returnable_lng3 (x : String) (hm : x ∈ lng3) :
    x ∈ returnableCodes := by
  simp only [returnableCodes, List.mem_append]
  exact Or.inl (Or.inl (Or.inl (Or.inl (Or.inr hm))))

theorem mem_returnable_term (x : String)
    (hm : x ∈ lng3term_to_lng3.map Prod.snd) : x ∈ returnableCodes := by
  simp only [returnableCodes, List.mem_append]
  exact Or.inl (Or.inl (Or.inl (Or.inr hm)))

theorem mem_returnable_en (x : String)
    (hm : x ∈ lng_en_name_to_lng3.map Prod.snd) : x ∈ returnableCodes := by
  simp only [returnableCodes, List.mem_append]
  exact Or.inl (Or.inl (Or.inr hm))

theorem mem_returnable_fr (x : String)
    (hm : x ∈ lng_fr_name_to_lng3.map Prod.snd) : x ∈ returnableCodes := by
  simp only [returnableCodes, List.mem_append]
  exact Or.inl (Or.inr hm)

theorem mem_returnable_exc (x : String)
    (hm : x ∈ lng_exceptions.map (fun kv => kv.2.1)) : x ∈ returnableCodes := by
  simp only [returnableCodes, List.mem_append]
  exact Or.inr hm

theorem langCoreF_mem : ∀ (fuel : Nat) (cs : List Char) (L : LangR),
    langCoreF fuel cs = .ok L → L.lang ∈ returnableCodes := by
  intro fuel
  induction fuel with
  | zero =>
    intro cs L h
    simp [langCoreF] at h
  | succ fuel ih =>
    intro cs L h
    rw [langCoreF] at h
    split at h
    · split at h
      · rename_i l hl
        simp only [Except.ok.injEq] at h
        rw [← h]
        exact ih _ l hl
      · cases h
    · dsimp only at h
      split at h
      · rename_i l hl
        simp only [Except.ok.injEq] at h
        rw [← h]
        show l ∈ returnableCodes
        split at hl
        · exact mem_returnable_lng2 l (dictGet_val_mem _ _ _ hl)
        · split at hl
          · split at hl
            · rename_i hmem3
              simp only [Option.some.injEq] at hl
              rw [← hl]
              exact mem_returnable_lng3 _ hmem3
            · exact mem_returnable_term l (dictGet_val_mem _ _ _ hl)
          · cases hen : dictGet lng_en_name_to_lng3
                (String.mk (cs.map Char.toLower)) with
            | some x =>
              rw [hen] at hl
              simp only [Option.orElse, Option.some.injEq] at hl
              rw [← hl]
              exact mem_returnable_en x (dictGet_val_mem _ _ _ hen)
            | none =>
              rw [hen] at hl
              simp only [Option.orElse] at hl
              exact mem_returnable_fr l (dictGet_val_mem _ _ _ hl)
      · split at h
        · rename_i lc hlc
          simp only [Except.ok.injEq] at h
          rw [← h]
          show lc.1 ∈ returnableCodes
          obtain ⟨kv, hkv, hkv2⟩ := List.mem_map.mp (dictGet_val_mem _ _ _ hlc)
          rw [show lc.1 = kv.2.1 by rw [hkv2]]
          exact mem_returnable_exc _ (List.mem_map_of_mem (fun kv => kv.2.1) hkv)
        · cases h

/-- C8 counterexample: the entity built from `"en"` (canonical code `eng`)
has no terminological 3-letter code, and the entity built from `"ace"`
(Achinese) has no 2-letter code — both view lookups fail even though the
constructor succeeded. -/
theorem c8_counterexample :
    LanguageMk "en" = .ok ⟨"eng", none⟩ ∧
    lang_alpha3term ⟨"eng", none⟩ = none ∧
    LanguageMk "ace" = .ok ⟨"ace", none⟩ ∧
    lang_alpha2 ⟨"ace", none⟩ = none :=
  ⟨by rfl, by rfl, by rfl, by rfl⟩

/-- C8 (amended): for every entity built through the public constructor,
the alpha-3 view and the English and French name views are defined; the
2-letter and terminological 3-letter views may be undefined when the
entity's canonical code has no such field in the reference table. -/
theorem c8_constructed_views_defined :
    ∀ (cs : List Char) (L : LangR), langCore cs = .ok L →
      lang_alpha3 L = L.lang ∧ (lang_english_name L).isSome ∧
        (lang_french_name L).isSome := by
  intro cs L h
  have hm := langCoreF_mem _ cs L h
  have hgood : ∀ c ∈ returnableCodes,
      (dictGet lng3_to_lng_en_name c).isSome ∧
        (dictGet lng3_to_lng_fr_name c).isSome := by decide
  exact ⟨rfl, (hgood _ hm).1, (hgood _ hm).2⟩

/-- Witness for C8's amended statement at the entity built from `"en"`. -/
theorem c8_witness :
    langCore "en".toList = .ok ⟨"eng", none⟩ ∧
    (lang_alpha3 ⟨"eng", none⟩ = "eng" ∧
     (lang_english_name ⟨"eng", none⟩).isSome ∧
     (lang_french_name ⟨"eng", none⟩).isSome) :=
  ⟨by rfl, c8_constructed_views_defined "en".toList ⟨"eng", none⟩ (by rfl)⟩

/-! ## Claim C9 -/

/-- C9 counterexample: the Greek row's first English name contains
parentheses, so the constructor's `name(country)` regex fires on it and
construction fails with the ValueError — while the same row's 2-letter
code builds the entity for `gre`; the three constructions are not all
equal for that row. -/
theorem c9_counterexample :
    ["gre", "ell", "el", "Greek, Modern (1453-)",
      "grec moderne (après 1453)"] ∈ language_matrix ∧
    firstEnLower ["gre", "ell", "el", "Greek, Modern (1453-)",
      "grec moderne (après 1453)"] = "greek, modern (1453-)" ∧
    langCore "el".toList = .ok ⟨"gre", none⟩ ∧
    langCore "gre".toList = .ok ⟨"gre", none⟩ ∧
    langCore "greek, modern (1453-)".toList =
      .error (errMsg "greek, modern ") :=
  ⟨by decide, by rfl, by rfl, by rfl, by rfl⟩

/-- C9 (amended): for every table row that has a 2-letter code and an
English name whose lowercased first form contains no parenthesis (so it
is not mis-parsed as country syntax), the constructions from the 2-letter
code, the 3-letter code and the lowercased first English name all yield
the same canonical entity. -/
theorem c9_roundtrip_no_paren :
    ∀ row ∈ language_matrix, rowGet row 2 ≠ "" → rowGet row 3 ≠ "" →
      ¬ '(' ∈ (firstEnLower row).toList →
      langCore (rowGet row 2).toList = .ok ⟨rowGet row 0, none⟩ ∧
      langCore (rowGet row 0).toList = .ok ⟨rowGet row 0, none⟩ ∧
      langCore (firstEnLower row).toList = .ok ⟨rowGet row 0, none⟩ := by
  decide

/-- Witness for C9's amended statement at the English row. -/
theorem c9_witness :
    langCore "en".toList = .ok ⟨"eng", none⟩ ∧
    langCore "eng".toList = .ok ⟨"eng", none⟩ ∧
    langCore "english".toList = .ok ⟨"eng", none⟩ :=
  c9_roundtrip_no_paren ["eng", "", "en", "English", "anglais"]
    (by decide) (by decide) (by decide) (by decide)

/-! ## Claim C10 -/

theorem mapLangs_error (ls : List String)
    (h : ∃ l ∈ ls, ∃ e, langCore l.toList = .error e) :
    ∃ e, mapLangs ls = .error e := by
  induction ls with
  | nil => simp at h
  | cons l rest ih =>
    rw [mapLangs]
    cases hc : langCore l.toList with
    | error e => exact ⟨e, rfl⟩
    | ok lr =>
      obtain ⟨l2, hl2, e2, he2⟩ := h
      have hrest : ∃ l ∈ rest, ∃ e, langCore l.toList = .error e := by
        rcases List.mem_cons.mp hl2 with he | hr
        · rw [he, hc] at he2
          cases he2
        · exact ⟨l2, hr, e2, he2⟩
      obtain ⟨e3, he3⟩ := ih hrest
      rw [he3]
      exact ⟨e3, rfl⟩

/-- C10: a non-empty allow-list containing an unrecognized identifier
makes search_language raise the Language construction error before
scanning the text: the result is the error, and the same error for every
input string. -/
theorem c10_bad_filter_raises :
    ∀ (ls : List String) (s : String), ls ≠ [] →
      (∃ l ∈ ls, ∃ e, langCore l.toList = .error e) →
      ∃ e, search_language s (some ls) = .error e ∧
        ∀ s2, search_language s2 (some ls) = .error e := by
  intro ls s hne hbad
  obtain ⟨e, he⟩ := mapLangs_error ls hbad
  have hb : buildFilterE (some ls) = .error e := by
    unfold buildFilterE
    dsimp only
    rw [if_neg (by simpa using hne), he]
  refine ⟨e, ?_, ?_⟩
  · unfold search_language
    rw [hb]
  · intro s2
    unfold search_language
    rw [hb]

/-- Witness for C10 with the unrecognized filter entry `xyz`. -/
theorem c10_witness :
    ∃ e, search_language "movie [en].avi" (some ["xyz"]) = .error e ∧
      ∀ s2, search_language s2 (some ["xyz"]) = .error e :=
  c10_bad_filter_raises ["xyz"] "movie [en].avi" (by simp)
    ⟨"xyz", by simp, errMsg "xyz", by rfl⟩
